import Mathlib

/-!
# Wayback: archiving dispatcher and chat ingestion

A shallow embedding of `wayback.go` (the `Wayback` and `Playback` fan-out
functions with their `Waybacker` backends), of the Mastodon ingestion loop
(`service/mastodon/mastodon.go`) and of the Telegram message handler
(`service/telegram/telegram.go`).

Conventions of the embedding:

* Collaborators that live outside this repository (`net/url`, the archiver
  packages, `playback`, `helper`, the chat SDKs) are fields of `Env`; every
  theorem holds for all of them.
* Package `config` is read through the structure `Config`.
* A Go `error` is a value of `Err`; a nil error is `none`.
* Goroutines launched through an `errgroup` are run one after the other in an
  order chosen by a list of picks (`pickOrder`); every completion order is
  obtained from some list of picks (`pickOrder_complete`), and the theorems
  quantify over all of them.
* The goroutines started by the two `Serve` loops take no argument: `process`
  reads the fields of the struct (`m.status`, `m.convID`, `t.upd`) when it
  runs. `Mastodon.Run` and `telegram.Run` interleave the loop with the started
  goroutines.
-/

namespace Wabarc

/-! ## Data model -/

/-- A Go `error`. `url` is the `*url.Error` produced by `url.Parse`, `new` is an
error made by `errors.New` of this repository. -/
inductive Err where
  | url (text : String)
  | new (text : String)
deriving DecidableEq, Repr

/-- The `Collect` struct of `wayback.go:30-35`. The zero value has four empty
strings. -/
structure Collect where
  Arc : String := ""
  Dst : String := ""
  Src : String := ""
  Ext : String := ""
deriving DecidableEq, Repr

/-- A parsed `*url.URL`; `text` is what `URL.String()` renders. -/
structure URL where
  text : String
deriving DecidableEq, Repr

/-- A `context.Context` as far as this code uses it: the deadline set by
`context.WithTimeout`, whether it has been cancelled, and the input attached by
`ContextWithInput`. -/
structure Context where
  deadline : Option Nat := none
  cancelled : Bool := false
  input : Option (List Nat) := none
deriving DecidableEq, Repr

/-- The fields of `reduxer.Bundle` that `wayback.go` reads. -/
structure Bundle where
  URL : String
  Title : String
  Image : List Nat
  HTML : List Nat
  PDF : List Nat
deriving DecidableEq, Repr

/-- The fields of `screenshot.Screenshots` set by `PH.parseShot`; the zero value
is all empty. -/
structure Screenshots where
  URL : String := ""
  Title : String := ""
  Image : List Nat := []
  HTML : List Nat := []
  PDF : List Nat := []
deriving DecidableEq, Repr

/-- What the code reads from package `config`: the slot identifier constants and
the accessors of `config.Opts`. `Slots` lists the entries of the
`map[string]bool` returned by `Opts.Slots()`. -/
structure Config where
  SLOT_IA : String
  SLOT_IS : String
  SLOT_IP : String
  SLOT_PH : String
  SLOT_TT : String
  SLOT_GC : String
  Slots : List (String × Bool)
  WaybackTimeout : Nat
  IPFSHost : String
  IPFSPort : Nat
  IPFSMode : String
  UseTor : Bool
  EnabledChromeRemote : Bool
  ChromeRemoteAddr : String
  PublishToChannel : Bool
  PublishToIssues : Bool
  PublishToTwitter : Bool
  PublishToMastodon : Bool
  SlotName : String → String
  SlotExtra : String → String

/-- The `ip.Archiver` value built by `IP.Wayback`. -/
structure IPArchiver where
  IPFSHost : String
  IPFSPort : Nat
  IPFSMode : String
  UseTor : Bool
deriving DecidableEq, Repr

/-- The `ph.Archiver` value built by `PH.Wayback`: the screenshot given to
`SetShot` and the address given to `ByRemote`, if any. -/
structure PHArchiver where
  shot : Screenshots := {}
  remote : Option String := none
deriving DecidableEq, Repr

/-- The lookup targets of package `playback`. -/
inductive PlaybackTarget where
  | IA | IS | IP | PH | TT | GC
deriving DecidableEq, Repr

/-- Collaborators outside this repository. An upstream archiver answers either
with a destination or with an error, given here by its text. -/
structure Env where
  /-- The function `url.Parse`. -/
  urlParse : String → Except String URL
  /-- The function `reduxer.Do`: the bundles by URL and its error. -/
  reduxerDo : Context → List String → (String → Option Bundle) × Option Err
  /-- The method `ia.Archiver.Wayback`. -/
  iaWayback : Context → URL → Except String String
  /-- The method `is.Archiver.Wayback`. -/
  isWayback : Context → URL → Except String String
  /-- The method `ip.Archiver.Wayback`. -/
  ipWayback : IPArchiver → Context → URL → Except String String
  /-- The method `ph.Archiver.Wayback`. -/
  phWayback : PHArchiver → Context → URL → Except String String
  /-- The function `playback.Playback`. -/
  playback : Context → PlaybackTarget → URL → String
  /-- The function `helper.MatchURL`. -/
  MatchURL : String → List String
  /-- The text that `textContent` extracts from the tree that `html.Parse`
  builds, or the parse error. -/
  htmlText : String → Except String String
  /-- The methods `IA`, `IS`, `IP` and `PH` of `wayback.Handle`, which archive
  the URLs of the handle. -/
  handleIA : List String → String
  handleIS : List String → String
  handleIP : List String → String
  handlePH : List String → String
  /-- The `Render` functions of package `publish`. -/
  renderMastodon : List Collect → String
  renderGitHub : List Collect → String
  renderTwitter : List Collect → String
  renderTelegram : List Collect → String

/-! ## Backends (`wayback.go:37-153`) -/

/-- The Internet Archive slot. -/
structure IA where
  URL : URL
  ctx : Context

/-- The archive.today slot. -/
structure IS where
  ctx : Context
  URL : URL

/-- The IPFS slot. -/
structure IP where
  ctx : Context
  bundle : Option Bundle
  URL : URL

/-- The Telegra.ph slot. -/
structure PH where
  ctx : Context
  bundle : Option Bundle
  URL : URL

/-- `IA.Wayback` (`wayback.go:76-84`): the upstream destination, or the text of
the upstream error. -/
def IA.Wayback (env : Env) (i : IA) : String :=
  match env.iaWayback i.ctx i.URL with
  | .error err => err
  | .ok dst => dst

/-- `IS.Wayback` (`wayback.go:88-96`). -/
def IS.Wayback (env : Env) (i : IS) : String :=
  match env.isWayback i.ctx i.URL with
  | .error err => err
  | .ok dst => dst

/-- `IP.Wayback` (`wayback.go:100-119`): a bundle, when there is one, puts its
HTML into the context. -/
def IP.Wayback (cfg : Config) (env : Env) (i : IP) : String :=
  let arc : IPArchiver :=
    { IPFSHost := cfg.IPFSHost, IPFSPort := cfg.IPFSPort,
      IPFSMode := cfg.IPFSMode, UseTor := cfg.UseTor }
  let ctx :=
    match i.bundle with
    | some bundle => { i.ctx with input := some bundle.HTML }
    | none => i.ctx
  match env.ipWayback arc ctx i.URL with
  | .error err => err
  | .ok dst => dst

/-- `PH.parseShot` (`wayback.go:138-149`). -/
def PH.parseShot (i : PH) : Screenshots :=
  match i.bundle with
  | some bundle =>
    { URL := bundle.URL, Title := bundle.Title, Image := bundle.Image,
      HTML := bundle.HTML, PDF := bundle.PDF }
  | none => {}

/-- `PH.Wayback` (`wayback.go:123-136`). -/
def PH.Wayback (cfg : Config) (env : Env) (i : PH) : String :=
  let arc : PHArchiver := { shot := i.parseShot }
  let arc :=
    if cfg.EnabledChromeRemote then { arc with remote := some cfg.ChromeRemoteAddr } else arc
  match env.phWayback arc i.ctx i.URL with
  | .error err => err
  | .ok dst => dst

/-- The implementations of the `Waybacker` interface. -/
inductive Waybacker where
  | ia (i : IA)
  | is (i : IS)
  | ip (i : IP)
  | ph (i : PH)

/-- `wayback` (`wayback.go:151-153`): calls the `Wayback` method of the
implementation. -/
def wayback (cfg : Config) (env : Env) : Waybacker → String
  | .ia i => i.Wayback env
  | .is i => i.Wayback env
  | .ip i => i.Wayback cfg env
  | .ph i => i.Wayback cfg env

/-! ## The errgroup -/

/-- The order in which launched goroutines complete: each pick, taken modulo the
number of goroutines still pending, names the next one to complete; when the
picks run out the rest complete in launch order. -/
def pickOrder {α : Type} : List Nat → List α → List α
  | _, [] => []
  | [], t :: ts => t :: ts
  | p :: ps, t :: ts =>
    match (t :: ts)[p % (ts.length + 1)]? with
    | some x => x :: pickOrder ps ((t :: ts).eraseIdx (p % (ts.length + 1)))
    | none => t :: ts

/-- The state shared by the goroutines of one batch: the slice `cols` guarded by
`mu`, the first error kept by the errgroup, and the group's context. -/
structure Batch where
  cols : List Collect := []
  err : Option Err := none
  ctx : Context

/-- One goroutine of `g.Go` runs to completion. A nil return keeps the slice it
appended to; the first non-nil return is kept as the group's error and cancels
the context; later errors are dropped. -/
def Batch.Go (f : Context → List Collect → Except Err (List Collect)) (b : Batch) : Batch :=
  match f b.ctx b.cols with
  | .ok cols => { b with cols := cols }
  | .error err =>
    match b.err with
    | none => { b with err := some err, ctx := { b.ctx with cancelled := true } }
    | some _ => b

/-- `context.WithTimeout`. -/
def Context.WithTimeout (ctx : Context) (d : Nat) : Context :=
  { ctx with
    deadline := match ctx.deadline with
      | some t => some (min t d)
      | none => some d }

/-! ## `Wayback` (`wayback.go:156-217`) -/

/-- The body of the goroutine launched at `wayback.go:176-203` for `slot` and
`uri`. -/
def waybackTask (cfg : Config) (env : Env) (bundles : String → Option Bundle)
    (slot uri : String) (ctx : Context) (cols : List Collect) : Except Err (List Collect) :=
  match env.urlParse uri with
  | .error err => .error (Err.url err)
  | .ok input =>
    let bundle := bundles uri
    let col : Collect := {}
    let col :=
      if slot = cfg.SLOT_IA then
        { col with Dst := wayback cfg env (.ia { URL := input, ctx := ctx }) }
      else if slot = cfg.SLOT_IS then
        { col with Dst := wayback cfg env (.is { URL := input, ctx := ctx }) }
      else if slot = cfg.SLOT_IP then
        { col with Dst := wayback cfg env (.ip { URL := input, ctx := ctx, bundle := bundle }) }
      else if slot = cfg.SLOT_PH then
        { col with Dst := wayback cfg env (.ph { URL := input, ctx := ctx, bundle := bundle }) }
      else col
    let col := { col with Src := uri }
    let col := { col with Arc := slot }
    let col := { col with Ext := slot }
    .ok (cols ++ [col])

/-- The goroutines launched by the two loops of `Wayback`, as (slot, uri)
pairs: for every URL, one for every slot whose flag is true. -/
def waybackLaunch (cfg : Config) (urls : List String) : List (String × String) :=
  urls.flatMap fun uri =>
    cfg.Slots.filterMap fun entry =>
      if !entry.2 then none else some (entry.1, uri)

/-- `Wayback` (`wayback.go:156-217`). `picks` fixes the completion order of the
goroutines. The result is the pair `(cols, err)`. -/
def Wayback (cfg : Config) (env : Env) (picks : List Nat) (ctx : Context)
    (urls : List String) : List Collect × Option Err :=
  let ctx := ctx.WithTimeout cfg.WaybackTimeout
  let bundles := (env.reduxerDo ctx urls).1
  let g : Batch := { ctx := ctx }
  let g := (pickOrder picks (waybackLaunch cfg urls)).foldl
    (fun g t => g.Go (waybackTask cfg env bundles t.1 t.2)) g
  match g.err with
  | some err => (g.cols, some err)
  | none =>
    if g.cols.length = 0 then (g.cols, some (Err.new "archives failure"))
    else (g.cols, none)

/-! ## `Playback` (`wayback.go:220-270`) -/

/-- The body of the goroutine launched at `wayback.go:232-261`. -/
def playbackTask (cfg : Config) (env : Env) (slot uri : String) (ctx : Context)
    (cols : List Collect) : Except Err (List Collect) :=
  match env.urlParse uri with
  | .error err => .error (Err.url err)
  | .ok input =>
    let col : Collect := {}
    let col :=
      if slot = cfg.SLOT_IA then { col with Dst := env.playback ctx .IA input }
      else if slot = cfg.SLOT_IS then { col with Dst := env.playback ctx .IS input }
      else if slot = cfg.SLOT_IP then { col with Dst := env.playback ctx .IP input }
      else if slot = cfg.SLOT_PH then { col with Dst := env.playback ctx .PH input }
      else if slot = cfg.SLOT_TT then { col with Dst := env.playback ctx .TT input }
      else if slot = cfg.SLOT_GC then { col with Dst := env.playback ctx .GC input }
      else col
    let col := { col with Src := uri }
    let col := { col with Arc := slot }
    let col := { col with Ext := slot }
    .ok (cols ++ [col])

/-- The fixed slot list of `Playback` (`wayback.go:228`). -/
def playbackSlots (cfg : Config) : List String :=
  [cfg.SLOT_IA, cfg.SLOT_IS, cfg.SLOT_IP, cfg.SLOT_PH, cfg.SLOT_TT, cfg.SLOT_GC]

/-- The goroutines launched by the two loops of `Playback`. -/
def playbackLaunch (cfg : Config) (urls : List String) : List (String × String) :=
  urls.flatMap fun uri => (playbackSlots cfg).map fun slot => (slot, uri)

/-- `Playback` (`wayback.go:220-270`). -/
def Playback (cfg : Config) (env : Env) (picks : List Nat) (ctx : Context)
    (urls : List String) : List Collect × Option Err :=
  let ctx := ctx.WithTimeout cfg.WaybackTimeout
  let g : Batch := { ctx := ctx }
  let g := (pickOrder picks (playbackLaunch cfg urls)).foldl
    (fun g t => g.Go (playbackTask cfg env t.1 t.2)) g
  match g.err with
  | some err => (g.cols, some err)
  | none => (g.cols, none)

/-! ## Mastodon ingestion (`service/mastodon/mastodon.go`) -/

/-- The calls a message handler makes to its collaborators, in the order they
are made. `archive` marks the entry into the handler's `archive` method, which
fans the URLs out to the enabled slots. -/
inductive Call where
  | ToMastodon (text id : String)
  | DeleteConversation (id : String)
  | ToChannel (text : String)
  | ToIssues (text : String)
  | ToTwitter (text : String)
  | Send (chatID : Int) (text : String) (replyTo : Int) (parseMode : String)
  | archive (urls : List String)
deriving DecidableEq, Repr

/-- The fields of `mastodon.Status` that the code reads. -/
structure Status where
  ID : String
  Content : String
deriving DecidableEq, Repr

/-- The fields of `mastodon.Conversation` that the code reads; `LastStatus` is a
pointer and may be nil. -/
structure Conversation where
  ID : String
  LastStatus : Option Status
deriving DecidableEq, Repr

/-- The key lookup `_, exist := m[k]` on a `map[mastodon.ID]bool`, kept as the
list of its entries. -/
def mapHas (m : List (String × Bool)) (k : String) : Bool :=
  m.any fun e => e.1 == k

/-- The builtin `delete(m, k)`. -/
def mapDelete (m : List (String × Bool)) (k : String) : List (String × Bool) :=
  m.filter fun e => e.1 != k

/-- The assignment `m[k] = v`. -/
def mapSet (m : List (String × Bool)) (k : String) (v : Bool) : List (String × Bool) :=
  (k, v) :: mapDelete m k

/-- The mutable fields of the `Mastodon` struct (`mastodon.go:24-34`). -/
structure Mastodon where
  status : Option Status := none
  convID : String := ""
  archiving : List (String × Bool) := []
deriving DecidableEq, Repr

/-- `textContent` (`mastodon.go:194-221`): the input itself when it does not
parse. -/
def textContent (env : Env) (s : String) : String :=
  match env.htmlText s with
  | .error _ => s
  | .ok text => text

/-- The body of the goroutine launched by `Mastodon.archive`
(`mastodon.go:168-187`) for one slot: `Arc` is set only in the four cases. -/
def Mastodon.archiveSlot (cfg : Config) (env : Env) (urls : List String) (slot : String) :
    Collect :=
  let c : Collect := {}
  if slot = cfg.SLOT_IA then { c with Arc := cfg.SlotName slot, Dst := env.handleIA urls }
  else if slot = cfg.SLOT_IS then { c with Arc := cfg.SlotName slot, Dst := env.handleIS urls }
  else if slot = cfg.SLOT_IP then { c with Arc := cfg.SlotName slot, Dst := env.handleIP urls }
  else if slot = cfg.SLOT_PH then { c with Arc := cfg.SlotName slot, Dst := env.handlePH urls }
  else c

/-- `Mastodon.archive` (`mastodon.go:158-192`): one goroutine per enabled slot,
their appends taken in completion order; the error is always nil. -/
def Mastodon.archive (cfg : Config) (env : Env) (picks : List Nat) (urls : List String) :
    List Collect × Option Err :=
  let launched := cfg.Slots.filterMap fun entry => if !entry.2 then none else some entry.1
  let col := (pickOrder picks launched).foldl
    (fun col slot => col ++ [Mastodon.archiveSlot cfg env urls slot]) []
  (col, none)

/-- `Mastodon.process` (`mastodon.go:109-156`), run without interruption on the
fields of `m` as they are when it runs. The result is the struct afterwards,
the calls made, and the returned error. The two deferred calls run last, in
reverse order of their `defer` statements: first the entry of `m.convID` is
deleted from `m.archiving`, then `DeleteConversation` is called. -/
def Mastodon.process (cfg : Config) (env : Env) (picks : List Nat) (m : Mastodon) :
    Mastodon × List Call × Option Err :=
  match m.status with
  | none => (m, [], some (Err.new "Mastodon: no status or conversation"))
  | some status =>
    if m.convID = "" then (m, [], some (Err.new "Mastodon: no status or conversation"))
    else
      let text := textContent env status.Content
      let deferred : Mastodon × List Call :=
        ({ m with archiving := mapDelete m.archiving m.convID }, [.DeleteConversation m.convID])
      let urls := env.MatchURL text
      if urls.length = 0 then
        (deferred.1, [.ToMastodon "URL no found" status.ID] ++ deferred.2,
          some (Err.new "Mastodon: URL no found"))
      else
        match Mastodon.archive cfg env picks urls with
        | (_, some err) => (deferred.1, [.archive urls] ++ deferred.2, some err)
        | (col, none) =>
          let replyText := env.renderMastodon col
          let calls : List Call := [.archive urls, .ToMastodon replyText status.ID]
          let calls :=
            if cfg.PublishToChannel then calls ++ [.ToChannel replyText] else calls
          let calls :=
            if cfg.PublishToIssues then calls ++ [.ToIssues (env.renderGitHub col)] else calls
          let calls :=
            if cfg.PublishToTwitter then calls ++ [.ToTwitter (env.renderTwitter col)] else calls
          (deferred.1, calls ++ deferred.2, none)

/-- One iteration of the loop over the polled conversations in `Mastodon.Serve`
(`mastodon.go:93-104`). The result is the struct afterwards and whether
`go m.process(ctx)` was executed. -/
def Mastodon.visit (m : Mastodon) (conv : Conversation) : Mastodon × Bool :=
  let m := { m with status := conv.LastStatus }
  let m := { m with convID := conv.ID }
  if mapHas m.archiving m.convID then (m, false)
  else ({ m with archiving := mapSet m.archiving m.convID true }, true)

/-- The loop over the conversations of one poll (`mastodon.go:93-104`), with no
`process` goroutine running in between. The second component lists, in order,
the identifiers for which `go m.process(ctx)` was executed. -/
def Mastodon.poll (m : Mastodon) : List Conversation → Mastodon × List String
  | [] => (m, [])
  | conv :: convs =>
    let r := m.visit conv
    let rest := Mastodon.poll r.1 convs
    (rest.1, if r.2 then conv.ID :: rest.2 else rest.2)

/-- Successive polls of `Mastodon.Serve` (`mastodon.go:86-106`). -/
def Mastodon.polls (m : Mastodon) : List (List Conversation) → Mastodon × List String
  | [] => (m, [])
  | convs :: more =>
    let r := m.poll convs
    let rest := Mastodon.polls r.1 more
    (rest.1, r.2 ++ rest.2)

/-! ## Telegram message handling (`service/telegram/telegram.go`) -/

/-- The fields of `tgbotapi.Message` that the code reads, with the result of
its method `IsCommand`. -/
structure Message where
  MessageID : Int
  ChatID : Int
  Text : String
  IsCommand : Bool
deriving DecidableEq, Repr

/-- The `tgbotapi.Update`; `Message` is a pointer and may be nil. -/
structure Update where
  Message : Option Message
deriving DecidableEq, Repr

/-- The mutable field of the `telegram` struct (`telegram.go:20-25`): the update
last stored by `Serve`. -/
structure telegram where
  upd : Update := { Message := none }
deriving DecidableEq, Repr

/-- The body of the goroutine launched by `telegram.archive`
(`telegram.go:119-136`) for one slot. -/
def telegram.archiveSlot (cfg : Config) (env : Env) (urls : List String) (slot : String) :
    Collect :=
  let c : Collect := {}
  let c :=
    if slot = cfg.SLOT_IA then { c with Dst := env.handleIA urls }
    else if slot = cfg.SLOT_IS then { c with Dst := env.handleIS urls }
    else if slot = cfg.SLOT_IP then { c with Dst := env.handleIP urls }
    else if slot = cfg.SLOT_PH then { c with Dst := env.handlePH urls }
    else c
  let c := { c with Arc := cfg.SlotName slot }
  { c with Ext := cfg.SlotExtra slot }

/-- `telegram.archive` (`telegram.go:109-141`). -/
def telegram.archive (cfg : Config) (env : Env) (picks : List Nat) (urls : List String) :
    List Collect × Option Err :=
  let launched := cfg.Slots.filterMap fun entry => if !entry.2 then none else some entry.1
  let col := (pickOrder picks launched).foldl
    (fun col slot => col ++ [telegram.archiveSlot cfg env urls slot]) []
  (col, none)

/-- `telegram.process` (`telegram.go:63-107`), run without interruption: it
reads the update from the field `t.upd` as it is when the goroutine runs. The
result is the calls it makes. `Serve` stores only updates whose message is not
nil; on a nil message the dereference panics and the result is `none`. -/
def telegram.process (cfg : Config) (env : Env) (picks : List Nat) (t : telegram) :
    Option (List Call) :=
  let update := t.upd
  match update.Message with
  | none => none
  | some message =>
    let text := message.Text
    let urls := env.MatchURL text
    if message.IsCommand then some []
    else if urls.length = 0 then
      some [.Send message.ChatID "URL no found." message.MessageID ""]
    else
      match telegram.archive cfg env picks urls with
      | (_, some _) => some [.archive urls]
      | (col, none) =>
        let replyText := env.renderTelegram col
        let calls : List Call :=
          [.archive urls, .Send message.ChatID replyText message.MessageID "html"]
        let calls :=
          if cfg.PublishToChannel then calls ++ [.ToChannel replyText] else calls
        let calls :=
          if cfg.PublishToIssues then calls ++ [.ToIssues (env.renderGitHub col)] else calls
        let calls :=
          if cfg.PublishToMastodon then
            calls ++ [.ToMastodon (env.renderMastodon col) ""]
          else calls
        some calls

/-- One iteration of the loop over updates in `telegram.Serve`
(`telegram.go:51-58`): an update without a message is ignored; any other is
stored in `t.upd` and `go t.process(ctx)` is executed. The result is the struct
afterwards and whether the goroutine was started. -/
def telegram.receive (t : telegram) (update : Update) : telegram × Bool :=
  match update.Message with
  | none => (t, false)
  | some _ => ({ t with upd := update }, true)

/-! ## The services with their goroutines -/

/-- One thing that happens in the Mastodon service: the loop of `Serve` visits a
polled conversation, or a goroutine started by `go m.process(ctx)` that has not
run yet runs `process`. -/
inductive Mastodon.Step where
  | visit (conv : Conversation)
  | pass
deriving DecidableEq, Repr

/-- The Mastodon service at one moment: the struct, the number of goroutines
started that have not run yet, and the calls made so far. -/
structure Mastodon.Run where
  m : Mastodon := {}
  started : Nat := 0
  calls : List Call := []
deriving DecidableEq, Repr

/-- One step of the Mastodon service. A pass is `process` on the struct as it is
at that moment. -/
def Mastodon.Run.step (cfg : Config) (env : Env) (picks : List Nat) (r : Mastodon.Run) :
    Mastodon.Step → Mastodon.Run
  | .visit conv =>
    let v := r.m.visit conv
    { r with m := v.1, started := if v.2 then r.started + 1 else r.started }
  | .pass =>
    if r.started = 0 then r
    else
      let p := r.m.process cfg env picks
      { m := p.1, started := r.started - 1, calls := r.calls ++ p.2.1 }

/-- A sequence of steps of the Mastodon service. -/
def Mastodon.Run.steps (cfg : Config) (env : Env) (picks : List Nat) (r : Mastodon.Run)
    (steps : List Mastodon.Step) : Mastodon.Run :=
  steps.foldl (Mastodon.Run.step cfg env picks) r

/-- One thing that happens in the Telegram service: the loop of `Serve` receives
an update, or a goroutine started by `go t.process(ctx)` that has not run yet
runs `process`. -/
inductive telegram.Step where
  | receive (update : Update)
  | pass
deriving DecidableEq, Repr

/-- The Telegram service at one moment. -/
structure telegram.Run where
  t : telegram := {}
  started : Nat := 0
  calls : List Call := []
deriving DecidableEq, Repr

/-- One step of the Telegram service. -/
def telegram.Run.step (cfg : Config) (env : Env) (picks : List Nat) (r : telegram.Run) :
    telegram.Step → telegram.Run
  | .receive update =>
    let v := r.t.receive update
    { r with t := v.1, started := if v.2 then r.started + 1 else r.started }
  | .pass =>
    if r.started = 0 then r
    else
      { r with started := r.started - 1,
               calls := r.calls ++ (r.t.process cfg env picks).getD [] }

/-- A sequence of steps of the Telegram service. -/
def telegram.Run.steps (cfg : Config) (env : Env) (picks : List Nat) (r : telegram.Run)
    (steps : List telegram.Step) : telegram.Run :=
  steps.foldl (telegram.Run.step cfg env picks) r

/-! ## Vocabulary of the statements -/

/-- Whether `url.Parse` accepts the string. -/
def parses (env : Env) (uri : String) : Bool :=
  match env.urlParse uri with
  | .ok _ => true
  | .error _ => false

/-- The error returned by a goroutine for `uri`, if its URL does not parse. -/
def parseErr (env : Env) (uri : String) : Option Err :=
  match env.urlParse uri with
  | .ok _ => none
  | .error err => some (Err.url err)

/-- The identifiers whose flag is true in the slot configuration. -/
def enabledSlots (cfg : Config) : List String :=
  (cfg.Slots.filter fun entry => entry.2).map fun entry => entry.1

/-- The four identifiers handled by the switch of `Wayback`. -/
def archiveSlots (cfg : Config) : List String :=
  [cfg.SLOT_IA, cfg.SLOT_IS, cfg.SLOT_IP, cfg.SLOT_PH]

/-- The (source URL, backend identifier) pair of a record. -/
def Collect.pair (c : Collect) : String × String := (c.Src, c.Arc)

/-- The shape shared by the goroutine bodies of `Wayback` and `Playback`: a URL
that does not parse gives its parse error, a URL that parses appends one record
related to the (slot, uri) pair by `Q`. -/
structure TaskLaw (env : Env) (Q : String × String → Collect → Prop)
    (f : String × String → Context → List Collect → Except Err (List Collect)) : Prop where
  fails : ∀ t ctx cols err, env.urlParse t.2 = .error err →
    f t ctx cols = .error (Err.url err)
  appends : ∀ t ctx cols input, env.urlParse t.2 = .ok input →
    ∃ col, f t ctx cols = .ok (cols ++ [col]) ∧ Q t col

/-- What a record appended by `waybackTask` for the pair `t` looks like. -/
def waybackRecord (cfg : Config) (env : Env) (t : String × String) (col : Collect) : Prop :=
  col.Arc = t.1 ∧ col.Src = t.2 ∧ col.Ext = t.1 ∧
    (t.1 ∈ archiveSlots cfg → ∃ w, col.Dst = wayback cfg env w) ∧
    (t.1 ∉ archiveSlots cfg → col.Dst = "")

/-- What a record appended by `playbackTask` for the pair `t` looks like. -/
def playbackRecord (t : String × String) (col : Collect) : Prop :=
  col.Arc = t.1 ∧ col.Src = t.2 ∧ col.Ext = t.1

/-- The return statements of `Wayback` (`wayback.go:206-216`) on the batch left
by `g.Wait`. -/
def waybackReturn (g : Batch) : List Collect × Option Err :=
  match g.err with
  | some err => (g.cols, some err)
  | none =>
    if g.cols.length = 0 then (g.cols, some (Err.new "archives failure"))
    else (g.cols, none)

/-- The return statements of `Playback` (`wayback.go:264-269`). -/
def playbackReturn (g : Batch) : List Collect × Option Err :=
  match g.err with
  | some err => (g.cols, some err)
  | none => (g.cols, none)

/-- A configuration for the worked examples: the spec's scenario of a backend
`A` that is enabled and a backend `B` that is not. -/
def sampleConfig : Config :=
  { SLOT_IA := "ia", SLOT_IS := "is", SLOT_IP := "ip", SLOT_PH := "ph",
    SLOT_TT := "tt", SLOT_GC := "gc",
    Slots := [("A", true), ("B", false)],
    WaybackTimeout := 30,
    IPFSHost := "127.0.0.1", IPFSPort := 5001, IPFSMode := "pinner", UseTor := false,
    EnabledChromeRemote := false, ChromeRemoteAddr := "",
    PublishToChannel := false, PublishToIssues := false,
    PublishToTwitter := false, PublishToMastodon := false,
    SlotName := fun slot => slot, SlotExtra := fun slot => slot }

/-- The sample configuration with the Internet Archive and archive.today slots
enabled and the IPFS slot disabled. -/
def archiveConfig : Config :=
  { sampleConfig with Slots := [("ia", true), ("is", true), ("ip", false)] }

/-- Collaborators for the worked examples. `url.Parse` rejects a string that
starts with a colon ("missing protocol scheme") and accepts the other strings
used here; every archiver and lookup answers with a non-empty destination;
`MatchURL` takes a text that starts with "http" as one URL and finds no URL in
any other text. -/
def sampleEnv : Env :=
  { urlParse := fun s =>
      match s.data with
      | ':' :: _ => .error "missing protocol scheme"
      | _ => .ok { text := s },
    reduxerDo := fun _ _ => (fun _ => none, none),
    iaWayback := fun _ _ => .ok "https://web.archive.org/web/1",
    isWayback := fun _ _ => .ok "https://archive.today/1",
    ipWayback := fun _ _ _ => .error "ipfs: context deadline exceeded",
    phWayback := fun _ _ _ => .ok "https://telegra.ph/1",
    playback := fun _ _ _ => "Not found",
    MatchURL := fun text =>
      match text.data with
      | 'h' :: 't' :: 't' :: 'p' :: _ => [text]
      | _ => [],
    htmlText := fun s => .ok s,
    handleIA := fun _ => "https://web.archive.org/web/1",
    handleIS := fun _ => "https://archive.today/1",
    handleIP := fun _ => "ipfs: context deadline exceeded",
    handlePH := fun _ => "https://telegra.ph/1",
    renderMastodon := fun col => String.intercalate ", " (col.map fun c => c.Dst),
    renderGitHub := fun col => String.intercalate ", " (col.map fun c => c.Dst),
    renderTwitter := fun col => String.intercalate ", " (col.map fun c => c.Dst),
    renderTelegram := fun col => String.intercalate ", " (col.map fun c => c.Dst) }

/-- A conversation whose last status has the text "no links here". -/
def plainConversation : Conversation :=
  { ID := "42", LastStatus := some { ID := "7", Content := "no links here" } }

/-- A conversation that carries no last status. -/
def emptyConversation : Conversation :=
  { ID := "43", LastStatus := none }

/-- A conversation with an empty identifier. -/
def namelessConversation : Conversation :=
  { ID := "", LastStatus := some { ID := "8", Content := "no links here" } }

/-- A conversation whose last status holds the link "https://example.org/". -/
def firstConversation : Conversation :=
  { ID := "41", LastStatus := some { ID := "6", Content := "https://example.org/" } }

/-- A conversation whose last status holds a link. -/
def linkConversation : Conversation :=
  { ID := "44", LastStatus := some { ID := "9", Content := "https://example.com/" } }

/-- A Telegram update with a command and no URL. -/
def commandUpdate : Update :=
  { Message := some { MessageID := 1, ChatID := 5, Text := "/start", IsCommand := true } }

/-- A Telegram update with the text "no links here". -/
def plainUpdate : Update :=
  { Message := some { MessageID := 2, ChatID := 5, Text := "no links here", IsCommand := false } }

/-! ## Completion orders -/

theorem cons_eraseIdx_perm {α : Type} {l : List α} {i : Nat} {x : α} (h : l[i]? = some x) :
    (x :: l.eraseIdx i).Perm l := by
  induction l generalizing i with
  | nil => simp at h
  | cons a l ih =>
    cases i with
    | zero =>
      simp at h
      subst h
      simp
    | succ i =>
      simp at h
      simp only [List.eraseIdx_cons_succ]
      exact (List.Perm.swap a x _).trans ((ih h).cons a)

/-- Whatever the picks, the goroutines that complete are the launched ones. -/
theorem pickOrder_perm {α : Type} (picks : List Nat) (l : List α) :
    (pickOrder picks l).Perm l := by
  induction picks generalizing l with
  | nil => cases l <;> simp [pickOrder]
  | cons p ps ih =>
    cases l with
    | nil => simp [pickOrder]
    | cons t ts =>
      simp only [pickOrder]
      split
      · next x hx => exact ((ih _).cons x).trans (cons_eraseIdx_perm hx)
      · exact List.Perm.refl _

/-- Every completion order of the launched goroutines is chosen by some picks. -/
theorem pickOrder_complete {α : Type} (order l : List α) (h : order.Perm l) :
    ∃ picks, pickOrder picks l = order := by
  induction order generalizing l with
  | nil =>
    have : l = [] := by simpa using h.symm.eq_nil
    exact ⟨[], by subst this; simp [pickOrder]⟩
  | cons x xs ih =>
    have hx : x ∈ l := h.subset (List.mem_cons_self x xs)
    obtain ⟨i, hi, hxi⟩ := List.getElem_of_mem hx
    have hget : l[i]? = some x := by rw [List.getElem?_eq_getElem hi, hxi]
    have hp : xs.Perm (l.eraseIdx i) :=
      List.Perm.cons_inv (h.trans (cons_eraseIdx_perm hget).symm)
    obtain ⟨ps, hps⟩ := ih _ hp
    refine ⟨i :: ps, ?_⟩
    cases l with
    | nil => simp at hi
    | cons t ts =>
      have hmod : i % (ts.length + 1) = i := Nat.mod_eq_of_lt (by simpa using hi)
      simp only [pickOrder, hmod, hget, hps]

/-! ## The batch after all goroutines have completed -/

theorem parses_eq_true_iff (env : Env) (uri : String) :
    parses env uri = true ↔ ∃ input, env.urlParse uri = .ok input := by
  unfold parses
  cases env.urlParse uri <;> simp

theorem parses_eq_false_iff (env : Env) (uri : String) :
    parses env uri = false ↔ ∃ err, env.urlParse uri = .error err := by
  unfold parses
  cases env.urlParse uri <;> simp

theorem parseErr_eq_none_iff (env : Env) (uri : String) :
    parseErr env uri = none ↔ parses env uri = true := by
  unfold parseErr parses
  cases env.urlParse uri <;> simp

/-- Running the goroutines in the order `order` from the batch `g` appends one
record for every pair whose URL parses, in that order, and keeps the first
error. -/
theorem foldl_Go {env : Env} {Q : String × String → Collect → Prop}
    {f : String × String → Context → List Collect → Except Err (List Collect)}
    (h : TaskLaw env Q f) (order : List (String × String)) (g : Batch) :
    ∃ new, (order.foldl (fun g t => g.Go (f t)) g).cols = g.cols ++ new ∧
      List.Forall₂ Q (order.filter fun t => parses env t.2) new ∧
      (order.foldl (fun g t => g.Go (f t)) g).err =
        match g.err with
        | some err => some err
        | none => order.findSome? fun t => parseErr env t.2 := by
  induction order generalizing g with
  | nil => exact ⟨[], by simp, by simp, by cases hg : g.err <;> simp [hg]⟩
  | cons t ts ih =>
    simp only [List.foldl_cons]
    cases hp : env.urlParse t.2 with
    | error err =>
      have hf := h.fails t g.ctx g.cols err hp
      have hparse : parses env t.2 = false := (parses_eq_false_iff env t.2).2 ⟨err, hp⟩
      have hperr : parseErr env t.2 = some (Err.url err) := by simp [parseErr, hp]
      obtain ⟨new, h1, h2, h3⟩ := ih (g.Go (f t))
      refine ⟨new, ?_, ?_, ?_⟩
      · rw [h1]
        simp only [Batch.Go, hf]
        cases hg : g.err <;> simp
      · simpa [List.filter_cons, hparse] using h2
      · rw [h3]
        simp only [Batch.Go, hf, List.findSome?_cons, hperr]
        cases hg : g.err <;> simp [hg]
    | ok input =>
      obtain ⟨col, hf, hQ⟩ := h.appends t g.ctx g.cols input hp
      have hparse : parses env t.2 = true := (parses_eq_true_iff env t.2).2 ⟨input, hp⟩
      have hperr : parseErr env t.2 = none := by simp [parseErr, hp]
      obtain ⟨new, h1, h2, h3⟩ := ih (g.Go (f t))
      refine ⟨col :: new, ?_, ?_, ?_⟩
      · rw [h1]
        simp [Batch.Go, hf]
      · simpa [List.filter_cons, hparse] using List.Forall₂.cons hQ h2
      · rw [h3]
        simp only [Batch.Go, hf, List.findSome?_cons, hperr]

theorem waybackTask_law (cfg : Config) (env : Env) (bundles : String → Option Bundle) :
    TaskLaw env (waybackRecord cfg env) fun t => waybackTask cfg env bundles t.1 t.2 := by
  constructor
  · intro t ctx cols err hp
    simp [waybackTask, hp]
  · intro t ctx cols input hp
    simp only [waybackTask, hp]
    refine ⟨_, rfl, ?_⟩
    simp only [waybackRecord, archiveSlots, List.mem_cons, List.mem_singleton, List.not_mem_nil,
      or_false, true_and]
    constructor
    · intro _
      split_ifs
      · exact ⟨.ia ⟨input, ctx⟩, rfl⟩
      · exact ⟨.is ⟨ctx, input⟩, rfl⟩
      · exact ⟨.ip ⟨ctx, bundles t.2, input⟩, rfl⟩
      · exact ⟨.ph ⟨ctx, bundles t.2, input⟩, rfl⟩
      · simp_all
    · intro hn
      push_neg at hn
      simp [hn.1, hn.2.1, hn.2.2.1, hn.2.2.2]

theorem playbackTask_law (cfg : Config) (env : Env) :
    TaskLaw env playbackRecord fun t => playbackTask cfg env t.1 t.2 := by
  constructor
  · intro t ctx cols err hp
    simp [playbackTask, hp]
  · intro t ctx cols input hp
    simp only [playbackTask, hp]
    exact ⟨_, rfl, rfl, rfl, rfl⟩

theorem Wayback_eq (cfg : Config) (env : Env) (picks : List Nat) (ctx : Context)
    (urls : List String) :
    Wayback cfg env picks ctx urls =
      waybackReturn ((pickOrder picks (waybackLaunch cfg urls)).foldl
        (fun g t => g.Go (waybackTask cfg env
          (env.reduxerDo (ctx.WithTimeout cfg.WaybackTimeout) urls).1 t.1 t.2))
        { ctx := ctx.WithTimeout cfg.WaybackTimeout }) := rfl

theorem Playback_eq (cfg : Config) (env : Env) (picks : List Nat) (ctx : Context)
    (urls : List String) :
    Playback cfg env picks ctx urls =
      playbackReturn ((pickOrder picks (playbackLaunch cfg urls)).foldl
        (fun g t => g.Go (playbackTask cfg env t.1 t.2))
        { ctx := ctx.WithTimeout cfg.WaybackTimeout }) := rfl

/-- The result of `Wayback` in terms of the completion order: one record for
every completed pair whose URL parses; the error is the first parse error in
completion order, else "archives failure" when there is no record. -/
theorem Wayback_result (cfg : Config) (env : Env) (picks : List Nat) (ctx : Context)
    (urls : List String) :
    ∃ order : List (String × String), order.Perm (waybackLaunch cfg urls) ∧
      List.Forall₂ (waybackRecord cfg env) (order.filter fun t => parses env t.2)
        (Wayback cfg env picks ctx urls).1 ∧
      (Wayback cfg env picks ctx urls).2 =
        match order.findSome? fun t => parseErr env t.2 with
        | some err => some err
        | none =>
          if (Wayback cfg env picks ctx urls).1.length = 0 then
            some (Err.new "archives failure")
          else none := by
  refine ⟨pickOrder picks (waybackLaunch cfg urls), pickOrder_perm _ _, ?_⟩
  obtain ⟨new, h1, h2, h3⟩ :=
    foldl_Go (waybackTask_law cfg env (env.reduxerDo (ctx.WithTimeout cfg.WaybackTimeout) urls).1)
      (pickOrder picks (waybackLaunch cfg urls)) { ctx := ctx.WithTimeout cfg.WaybackTimeout }
  simp only [List.nil_append] at h1 h3
  rw [Wayback_eq, ← h3]
  generalize List.foldl _ _ (pickOrder picks (waybackLaunch cfg urls)) = g at h1 ⊢
  subst h1
  unfold waybackReturn
  cases g.err with
  | some err => exact ⟨h2, rfl⟩
  | none =>
    simp only
    split_ifs <;> exact ⟨h2, rfl⟩

/-- The result of `Playback` in terms of the completion order. -/
theorem Playback_result (cfg : Config) (env : Env) (picks : List Nat) (ctx : Context)
    (urls : List String) :
    ∃ order : List (String × String), order.Perm (playbackLaunch cfg urls) ∧
      List.Forall₂ playbackRecord (order.filter fun t => parses env t.2)
        (Playback cfg env picks ctx urls).1 ∧
      (Playback cfg env picks ctx urls).2 = order.findSome? fun t => parseErr env t.2 := by
  refine ⟨pickOrder picks (playbackLaunch cfg urls), pickOrder_perm _ _, ?_⟩
  obtain ⟨new, h1, h2, h3⟩ :=
    foldl_Go (playbackTask_law cfg env)
      (pickOrder picks (playbackLaunch cfg urls)) { ctx := ctx.WithTimeout cfg.WaybackTimeout }
  simp only [List.nil_append] at h1 h3
  rw [Playback_eq, ← h3]
  generalize List.foldl _ _ (pickOrder picks (playbackLaunch cfg urls)) = g at h1 ⊢
  subst h1
  unfold playbackReturn
  cases g.err with
  | some err => exact ⟨h2, rfl⟩
  | none => exact ⟨h2, rfl⟩

/-- Records related to their pairs carry those pairs. -/
theorem pairs_of_forall₂ {Q : String × String → Collect → Prop}
    (hQ : ∀ t c, Q t c → c.Arc = t.1 ∧ c.Src = t.2) {ts : List (String × String)}
    {cols : List Collect} (h : List.Forall₂ Q ts cols) :
    cols.map Collect.pair = ts.map Prod.swap := by
  induction h with
  | nil => rfl
  | cons hab _ ih =>
    obtain ⟨h1, h2⟩ := hQ _ _ hab
    simp only [List.map_cons, ih, Collect.pair, h1, h2, Prod.swap]

theorem waybackLaunch_eq (cfg : Config) (urls : List String) :
    waybackLaunch cfg urls =
      urls.flatMap fun uri => (enabledSlots cfg).map fun slot => (slot, uri) := by
  unfold waybackLaunch enabledSlots
  congr 1
  funext uri
  induction cfg.Slots with
  | nil => rfl
  | cons e es ih =>
    cases he : e.2 <;> simp [List.filterMap_cons, List.filter_cons, he] <;> simpa using ih

/-- The launched pairs whose URL parses are the pairs of the parsing URLs with
the slots. -/
theorem launch_filter_swap (env : Env) (slots urls : List String) :
    (((urls.flatMap fun uri => slots.map fun slot => (slot, uri)).filter
      fun t => parses env t.2).map Prod.swap) =
      List.product (urls.filter (parses env)) slots := by
  induction urls with
  | nil => rfl
  | cons u us ih =>
    simp only [List.flatMap_cons, List.filter_append, List.map_append, ih]
    cases hu : parses env u
    · have : (slots.map fun slot => (slot, u)).filter (fun t => parses env t.2) = [] := by
        simp [List.filter_eq_nil_iff, hu]
      simp [this, List.filter_cons, hu]
    · have : (slots.map fun slot => (slot, u)).filter (fun t => parses env t.2) =
          slots.map fun slot => (slot, u) := by
        simp [List.filter_eq_self, hu]
      simp [this, List.filter_cons, hu, List.product, List.flatMap_cons]

/-- The pairs of the records of a batch, up to order. -/
theorem pairs_perm {Q : String × String → Collect → Prop}
    (hQ : ∀ t c, Q t c → c.Arc = t.1 ∧ c.Src = t.2) (env : Env) (slots urls : List String)
    {order : List (String × String)} {cols : List Collect}
    (hperm : order.Perm (urls.flatMap fun uri => slots.map fun slot => (slot, uri)))
    (h : List.Forall₂ Q (order.filter fun t => parses env t.2) cols) :
    (cols.map Collect.pair).Perm (List.product (urls.filter (parses env)) slots) := by
  rw [pairs_of_forall₂ hQ h, ← launch_filter_swap]
  exact (hperm.filter _).map _

theorem filter_parses_eq_self (env : Env) (urls : List String)
    (hvalid : ∀ uri ∈ urls, ∃ input, env.urlParse uri = .ok input) :
    urls.filter (parses env) = urls :=
  List.filter_eq_self.2 fun uri huri => (parses_eq_true_iff env uri).2 (hvalid uri huri)

theorem forall₂_mem_right {α β : Type} {Q : α → β → Prop} {ts : List α} {cols : List β}
    (h : List.Forall₂ Q ts cols) {c : β} (hc : c ∈ cols) : ∃ t ∈ ts, Q t c := by
  induction h with
  | nil => simp at hc
  | cons hab _ ih =>
    rcases List.mem_cons.1 hc with rfl | hc
    · exact ⟨_, List.mem_cons_self _ _, hab⟩
    · obtain ⟨t, ht, hq⟩ := ih hc
      exact ⟨t, List.mem_cons_of_mem _ ht, hq⟩

theorem mem_waybackLaunch {cfg : Config} {urls : List String} {t : String × String} :
    t ∈ waybackLaunch cfg urls ↔ t.2 ∈ urls ∧ t.1 ∈ enabledSlots cfg := by
  rw [waybackLaunch_eq]
  simp only [List.mem_flatMap, List.mem_map]
  constructor
  · rintro ⟨uri, huri, slot, hslot, rfl⟩
    exact ⟨huri, hslot⟩
  · rintro ⟨h2, h1⟩
    exact ⟨t.2, h2, t.1, h1, rfl⟩

theorem mem_enabledSlots {cfg : Config} {slot : String} :
    slot ∈ enabledSlots cfg ↔ (slot, true) ∈ cfg.Slots := by
  unfold enabledSlots
  simp only [List.mem_map, List.mem_filter]
  constructor
  · rintro ⟨e, ⟨he, h2⟩, rfl⟩
    have : e = (e.1, true) := by rw [← h2]
    rw [← this]
    exact he
  · intro h
    exact ⟨(slot, true), ⟨h, rfl⟩, rfl⟩

theorem mem_playbackLaunch {cfg : Config} {urls : List String} {t : String × String} :
    t ∈ playbackLaunch cfg urls ↔ t.2 ∈ urls ∧ t.1 ∈ playbackSlots cfg := by
  unfold playbackLaunch
  simp only [List.mem_flatMap, List.mem_map]
  constructor
  · rintro ⟨uri, huri, slot, hslot, rfl⟩
    exact ⟨huri, hslot⟩
  · rintro ⟨h2, h1⟩
    exact ⟨t.2, h2, t.1, h1, rfl⟩

/-- Every record of `Wayback` belongs to a launched pair whose URL parses. -/
theorem Wayback_record_origin (cfg : Config) (env : Env) (picks : List Nat) (ctx : Context)
    (urls : List String) {c : Collect} (hc : c ∈ (Wayback cfg env picks ctx urls).1) :
    ∃ t : String × String, t.2 ∈ urls ∧ t.1 ∈ enabledSlots cfg ∧ parses env t.2 = true ∧
      waybackRecord cfg env t c := by
  obtain ⟨order, hperm, hF, _⟩ := Wayback_result cfg env picks ctx urls
  obtain ⟨t, ht, hq⟩ := forall₂_mem_right hF hc
  obtain ⟨ht, hp⟩ := List.mem_filter.1 ht
  obtain ⟨h2, h1⟩ := mem_waybackLaunch.1 (hperm.mem_iff.1 ht)
  exact ⟨t, h2, h1, hp, hq⟩

/-- The pairs of the records of `Wayback`, up to order. -/
theorem Wayback_pairs (cfg : Config) (env : Env) (picks : List Nat) (ctx : Context)
    (urls : List String) :
    ((Wayback cfg env picks ctx urls).1.map Collect.pair).Perm
      (List.product (urls.filter (parses env)) (enabledSlots cfg)) := by
  obtain ⟨order, hperm, hF, _⟩ := Wayback_result cfg env picks ctx urls
  exact pairs_perm (fun t c h => ⟨h.1, h.2.1⟩) env (enabledSlots cfg) urls
    (by rw [← waybackLaunch_eq]; exact hperm) hF

/-- The error of `Wayback`: the parse error of an input URL, "archives
failure" when no goroutine failed and there is no record, else nil. -/
theorem Wayback_error (cfg : Config) (env : Env) (picks : List Nat) (ctx : Context)
    (urls : List String) :
    (∃ uri ∈ urls, ∃ text, env.urlParse uri = .error text ∧ enabledSlots cfg ≠ [] ∧
        (Wayback cfg env picks ctx urls).2 = some (Err.url text)) ∨
      ((∀ t ∈ waybackLaunch cfg urls, parses env t.2 = true) ∧
        (Wayback cfg env picks ctx urls).2 =
          if (Wayback cfg env picks ctx urls).1.length = 0 then
            some (Err.new "archives failure")
          else none) := by
  obtain ⟨order, hperm, _, herr⟩ := Wayback_result cfg env picks ctx urls
  cases hfs : order.findSome? (fun t => parseErr env t.2) with
  | some err =>
    left
    obtain ⟨t, ht, hte⟩ := List.exists_of_findSome?_eq_some hfs
    obtain ⟨h2, h1⟩ := mem_waybackLaunch.1 (hperm.mem_iff.1 ht)
    rw [hfs] at herr
    unfold parseErr at hte
    cases hp : env.urlParse t.2 with
    | ok input => simp [hp] at hte
    | error text =>
      simp only [hp, Option.some.injEq] at hte
      exact ⟨t.2, h2, text, hp, List.ne_nil_of_mem h1, by rw [herr, ← hte]⟩
  | none =>
    right
    rw [hfs] at herr
    refine ⟨fun t ht => ?_, herr⟩
    exact (parseErr_eq_none_iff env t.2).1
      (List.findSome?_eq_none_iff.1 hfs t (hperm.mem_iff.2 ht))

/-! ## The dispatcher `Wayback` -/

/-- C1: for URLs that all parse and a slot configuration with enabled backends
(n * k > 0), whatever the completion order, `Wayback` returns a nil error and
exactly n * k records, and the (Src, Arc) pairs of the records are, up to
order, the pairs of every URL occurrence with every enabled backend. -/
theorem Wayback_valid_urls (cfg : Config) (env : Env) (picks : List Nat) (ctx : Context)
    (urls : List String) (hvalid : ∀ uri ∈ urls, parses env uri = true)
    (hpos : 0 < urls.length * (enabledSlots cfg).length) :
    (Wayback cfg env picks ctx urls).2 = none ∧
      (Wayback cfg env picks ctx urls).1.length = urls.length * (enabledSlots cfg).length ∧
      ((Wayback cfg env picks ctx urls).1.map Collect.pair).Perm
        (List.product urls (enabledSlots cfg)) := by
  have hpairs := Wayback_pairs cfg env picks ctx urls
  rw [List.filter_eq_self.2 hvalid] at hpairs
  have hlen : (Wayback cfg env picks ctx urls).1.length =
      urls.length * (enabledSlots cfg).length := by
    have := hpairs.length_eq
    rw [List.length_map] at this
    exact this.trans (List.length_product _ _)
  refine ⟨?_, hlen, hpairs⟩
  rcases Wayback_error cfg env picks ctx urls with ⟨uri, huri, text, hp, _, _⟩ | ⟨_, herr⟩
  · have := hvalid uri huri
    simp [parses, hp] at this
  · rw [herr, if_neg]
    omega

theorem Wayback_valid_urls_witness :
    (0 < ["https://example.com/", "https://example.org/"].length *
        (enabledSlots archiveConfig).length) ∧
      (Wayback archiveConfig sampleEnv [3, 0] {}
        ["https://example.com/", "https://example.org/"]).2 = none ∧
      (Wayback archiveConfig sampleEnv [3, 0] {}
        ["https://example.com/", "https://example.org/"]).1.length =
          ["https://example.com/", "https://example.org/"].length *
            (enabledSlots archiveConfig).length ∧
      ((Wayback archiveConfig sampleEnv [3, 0] {}
        ["https://example.com/", "https://example.org/"]).1.map Collect.pair).Perm
        (List.product ["https://example.com/", "https://example.org/"]
          (enabledSlots archiveConfig)) :=
  ⟨by decide, Wayback_valid_urls archiveConfig sampleEnv [3, 0] {}
    ["https://example.com/", "https://example.org/"] (by decide) (by decide)⟩

/-- C2: when some input URL does not parse and at least one backend is
enabled, whatever the completion order, `Wayback` returns the parse error of a
malformed input URL; it still returns the records of the other goroutines, one
for every pair of a parsing URL with an enabled backend; and no record has a
malformed URL as its source. -/
theorem Wayback_malformed_url (cfg : Config) (env : Env) (picks : List Nat) (ctx : Context)
    (urls : List String) (hbad : ∃ uri ∈ urls, parses env uri = false)
    (hen : enabledSlots cfg ≠ []) :
    (∃ uri ∈ urls, ∃ text, env.urlParse uri = .error text ∧
        (Wayback cfg env picks ctx urls).2 = some (Err.url text)) ∧
      ((Wayback cfg env picks ctx urls).1.map Collect.pair).Perm
        (List.product (urls.filter (parses env)) (enabledSlots cfg)) ∧
      ∀ uri, parses env uri = false → ∀ c ∈ (Wayback cfg env picks ctx urls).1, c.Src ≠ uri := by
  refine ⟨?_, Wayback_pairs cfg env picks ctx urls, ?_⟩
  · rcases Wayback_error cfg env picks ctx urls with ⟨uri, huri, text, hp, _, he⟩ | ⟨hall, _⟩
    · exact ⟨uri, huri, text, hp, he⟩
    · obtain ⟨uri, huri, hp⟩ := hbad
      obtain ⟨slot, hslot⟩ := List.exists_mem_of_ne_nil _ hen
      have := hall (slot, uri) (mem_waybackLaunch.2 ⟨huri, hslot⟩)
      simp [hp] at this
  · intro uri hp c hc heq
    obtain ⟨t, _, _, htp, hq⟩ := Wayback_record_origin cfg env picks ctx urls hc
    rw [← hq.2.1, heq, hp] at htp
    exact Bool.false_ne_true htp

theorem Wayback_malformed_url_witness :
    (∃ uri ∈ ["https://example.com/", ":bad"], parses sampleEnv uri = false) ∧
      enabledSlots archiveConfig ≠ [] ∧
      (∃ uri ∈ ["https://example.com/", ":bad"], ∃ text,
        sampleEnv.urlParse uri = .error text ∧
        (Wayback archiveConfig sampleEnv [1] {} ["https://example.com/", ":bad"]).2 =
          some (Err.url text)) ∧
      ((Wayback archiveConfig sampleEnv [1] {} ["https://example.com/", ":bad"]).1.map
        Collect.pair).Perm
        (List.product (["https://example.com/", ":bad"].filter (parses sampleEnv))
          (enabledSlots archiveConfig)) ∧
      ({ Arc := "ia", Dst := "https://web.archive.org/web/1", Src := "https://example.com/",
          Ext := "ia" } : Collect).Src ≠ ":bad" :=
  have h := Wayback_malformed_url archiveConfig sampleEnv [1] {} ["https://example.com/", ":bad"]
    ⟨":bad", by decide, by decide⟩ (by decide)
  ⟨⟨":bad", by decide, by decide⟩, by decide, h.1, h.2.1,
    h.2.2 ":bad" (by decide) _ (by decide)⟩

/-- C3: when no backend is enabled (every flag of the slot configuration is
false, or the configuration is empty), `Wayback` returns no record together
with the "archives failure" error, for every URL list and so for every
non-empty list of valid URLs; and whenever `Wayback` returns at least one
record, its error is not "archives failure". -/
theorem Wayback_no_backend (cfg : Config) (env : Env) (picks : List Nat) (ctx : Context)
    (urls : List String) :
    ((∀ entry ∈ cfg.Slots, entry.2 = false) →
        Wayback cfg env picks ctx urls = ([], some (Err.new "archives failure"))) ∧
      ((Wayback cfg env picks ctx urls).1 ≠ [] →
        (Wayback cfg env picks ctx urls).2 ≠ some (Err.new "archives failure")) := by
  constructor
  · intro hnone
    have hen : enabledSlots cfg = [] := by
      unfold enabledSlots
      rw [List.map_eq_nil_iff, List.filter_eq_nil_iff]
      intro entry he
      simp [hnone entry he]
    have hpairs := Wayback_pairs cfg env picks ctx urls
    have hcols : (Wayback cfg env picks ctx urls).1 = [] := by
      have := hpairs.length_eq
      rw [List.length_map] at this
      have h0 := this.trans (List.length_product _ _)
      rw [hen, List.length_nil, Nat.mul_zero] at h0
      exact List.length_eq_zero.1 h0
    rcases Wayback_error cfg env picks ctx urls with ⟨_, _, _, _, hne, _⟩ | ⟨_, herr⟩
    · exact absurd hen hne
    · rw [hcols] at herr
      exact Prod.ext hcols (by simpa using herr)
  · intro hcols
    rcases Wayback_error cfg env picks ctx urls with ⟨_, _, _, _, _, herr⟩ | ⟨_, herr⟩
    · rw [herr]
      simp
    · rw [herr, if_neg (by simpa [List.length_eq_zero] using hcols)]
      simp

theorem Wayback_no_backend_witness :
    (∀ entry ∈ [("ia", false), ("is", false)], entry.2 = false) ∧
      Wayback { sampleConfig with Slots := [("ia", false), ("is", false)] } sampleEnv [2] {}
        ["https://example.com/"] = ([], some (Err.new "archives failure")) ∧
      (Wayback archiveConfig sampleEnv [2] {} ["https://example.com/"]).1 ≠ [] ∧
      (Wayback archiveConfig sampleEnv [2] {} ["https://example.com/"]).2 ≠
        some (Err.new "archives failure") :=
  ⟨by decide,
    (Wayback_no_backend { sampleConfig with Slots := [("ia", false), ("is", false)] } sampleEnv
      [2] {} ["https://example.com/"]).1 (by decide),
    by decide,
    (Wayback_no_backend archiveConfig sampleEnv [2] {} ["https://example.com/"]).2 (by decide)⟩

/-- C4: every record returned by `Wayback` has as `Arc` an identifier whose
flag is true in the slot configuration and as `Src` one of the input URLs; with
the keys of the configuration distinct, as in a Go map, no record carries an
identifier whose flag is false; and for the input `["https://example.com/"]`
with the configuration `A` enabled, `B` disabled there is exactly one record,
for `A`. -/
theorem Wayback_records_enabled (cfg : Config) (env : Env) (picks : List Nat) (ctx : Context)
    (urls : List String) :
    (∀ c ∈ (Wayback cfg env picks ctx urls).1, (c.Arc, true) ∈ cfg.Slots ∧ c.Src ∈ urls) ∧
      ((cfg.Slots.map Prod.fst).Nodup → ∀ slot, (slot, false) ∈ cfg.Slots →
        ∀ c ∈ (Wayback cfg env picks ctx urls).1, c.Arc ≠ slot) ∧
      (cfg.Slots = [("A", true), ("B", false)] → parses env "https://example.com/" = true →
        ∃ c, (Wayback cfg env picks ctx ["https://example.com/"]).1 = [c] ∧
          c.Arc = "A" ∧ c.Src = "https://example.com/") := by
  have hmem : ∀ urls, ∀ c ∈ (Wayback cfg env picks ctx urls).1,
      (c.Arc, true) ∈ cfg.Slots ∧ c.Src ∈ urls := by
    intro urls c hc
    obtain ⟨t, h2, h1, _, hq⟩ := Wayback_record_origin cfg env picks ctx urls hc
    rw [hq.1, hq.2.1]
    exact ⟨mem_enabledSlots.1 h1, h2⟩
  refine ⟨hmem urls, ?_, ?_⟩
  · intro hnd slot hslot c hc heq
    have htrue := (hmem urls c hc).1
    rw [heq] at htrue
    have := List.inj_on_of_nodup_map hnd htrue hslot rfl
    simp at this
  · intro hslots hp
    have hpairs := Wayback_pairs cfg env picks ctx ["https://example.com/"]
    have hen : enabledSlots cfg = ["A"] := by
      unfold enabledSlots
      rw [hslots]
      rfl
    rw [hen, List.filter_cons_of_pos hp] at hpairs
    have hsingle := List.perm_singleton.1 hpairs
    obtain ⟨c, hc⟩ : ∃ c, (Wayback cfg env picks ctx ["https://example.com/"]).1 = [c] := by
      cases hcols : (Wayback cfg env picks ctx ["https://example.com/"]).1 with
      | nil => rw [hcols] at hsingle; simp [List.product] at hsingle
      | cons c cs =>
        cases cs with
        | nil => exact ⟨c, rfl⟩
        | cons _ _ => rw [hcols] at hsingle; simp [List.product] at hsingle
    refine ⟨c, hc, ?_⟩
    rw [hc] at hsingle
    simp [List.product, Collect.pair] at hsingle
    exact ⟨hsingle.2, hsingle.1⟩

theorem Wayback_records_enabled_witness :
    ({ Arc := "A", Dst := "", Src := "https://example.com/", Ext := "A" } : Collect) ∈
        (Wayback sampleConfig sampleEnv [] {} ["https://example.com/"]).1 ∧
      (("A", true) ∈ sampleConfig.Slots ∧ "https://example.com/" ∈ ["https://example.com/"]) ∧
      ((sampleConfig.Slots.map Prod.fst).Nodup ∧ ("B", false) ∈ sampleConfig.Slots ∧
        ({ Arc := "A", Dst := "", Src := "https://example.com/", Ext := "A" } : Collect).Arc ≠
          "B") ∧
      (sampleConfig.Slots = [("A", true), ("B", false)] ∧
        parses sampleEnv "https://example.com/" = true ∧
        ∃ c, (Wayback sampleConfig sampleEnv [] {} ["https://example.com/"]).1 = [c] ∧
          c.Arc = "A" ∧ c.Src = "https://example.com/") :=
  have h := Wayback_records_enabled sampleConfig sampleEnv [] {} ["https://example.com/"]
  ⟨by decide, h.1 { Arc := "A", Dst := "", Src := "https://example.com/", Ext := "A" } (by decide),
    ⟨by decide, by decide, h.2.1 (by decide) "B" (by decide) _ (by decide)⟩,
    ⟨rfl, by decide, h.2.2 rfl (by decide)⟩⟩

/-- Every sample backend answers with a non-empty string. -/
theorem sampleEnv_wayback_ne (cfg : Config) (w : Waybacker) : wayback cfg sampleEnv w ≠ "" := by
  cases w <;> simp [wayback, IA.Wayback, IS.Wayback, IP.Wayback, PH.Wayback, sampleEnv]

/-- C5: assuming every backend's archive operation returns a non-empty string,
every record returned by `Wayback` has a non-empty `Dst`, for a slot
configuration whose enabled identifiers are backend identifiers, that is, among
the four that have an archive operation (IA, IS, IP, PH). -/
theorem Wayback_Dst_nonempty (cfg : Config) (env : Env) (picks : List Nat) (ctx : Context)
    (urls : List String) (hne : ∀ w, wayback cfg env w ≠ "")
    (hkeys : ∀ slot ∈ enabledSlots cfg, slot ∈ archiveSlots cfg) :
    ∀ c ∈ (Wayback cfg env picks ctx urls).1, c.Dst ≠ "" := by
  intro c hc
  obtain ⟨t, _, hslot, _, hq⟩ := Wayback_record_origin cfg env picks ctx urls hc
  obtain ⟨w, hw⟩ := hq.2.2.2.1 (hkeys t.1 hslot)
  rw [hw]
  exact hne w

/-- Two URLs with the Internet Archive and archive.today slots enabled. -/
theorem Wayback_Dst_nonempty_witness :
    (∀ w, wayback archiveConfig sampleEnv w ≠ "") ∧
      (∀ slot ∈ enabledSlots archiveConfig, slot ∈ archiveSlots archiveConfig) ∧
      (Wayback archiveConfig sampleEnv [1] {} ["https://example.com/", "https://example.org/"]).1.length
        = 4 ∧
      ({ Arc := "is", Dst := "https://archive.today/1", Src := "https://example.org/",
          Ext := "is" } : Collect) ∈
        (Wayback archiveConfig sampleEnv [1] {}
          ["https://example.com/", "https://example.org/"]).1 ∧
      ({ Arc := "is", Dst := "https://archive.today/1", Src := "https://example.org/",
          Ext := "is" } : Collect).Dst ≠ "" :=
  ⟨sampleEnv_wayback_ne archiveConfig, by decide, by decide, by decide,
    Wayback_Dst_nonempty archiveConfig sampleEnv [1] {}
      ["https://example.com/", "https://example.org/"]
      (sampleEnv_wayback_ne archiveConfig) (by decide) _ (by decide)⟩

/-! ## The lookup `Playback` -/

/-- The pairs of the records of `Playback`, up to order. -/
theorem Playback_pairs (cfg : Config) (env : Env) (picks : List Nat) (ctx : Context)
    (urls : List String) :
    ((Playback cfg env picks ctx urls).1.map Collect.pair).Perm
      (List.product (urls.filter (parses env)) (playbackSlots cfg)) := by
  obtain ⟨order, hperm, hF, _⟩ := Playback_result cfg env picks ctx urls
  exact pairs_perm (fun t c h => ⟨h.1, h.2.1⟩) env (playbackSlots cfg) urls hperm hF

/-- The error of `Playback` is nil exactly when every input URL parses;
otherwise it is the parse error of an input URL. -/
theorem Playback_error (cfg : Config) (env : Env) (picks : List Nat) (ctx : Context)
    (urls : List String) :
    ((Playback cfg env picks ctx urls).2 = none ↔ ∀ uri ∈ urls, parses env uri = true) ∧
      ∀ err, (Playback cfg env picks ctx urls).2 = some err →
        ∃ uri ∈ urls, ∃ text, env.urlParse uri = .error text ∧ err = Err.url text := by
  obtain ⟨order, hperm, _, herr⟩ := Playback_result cfg env picks ctx urls
  rw [herr]
  constructor
  · rw [List.findSome?_eq_none_iff]
    constructor
    · intro h uri huri
      have hmem : (cfg.SLOT_IA, uri) ∈ order :=
        hperm.mem_iff.2 (mem_playbackLaunch.2 ⟨huri, by simp [playbackSlots]⟩)
      exact (parseErr_eq_none_iff env uri).1 (h _ hmem)
    · intro h t ht
      exact (parseErr_eq_none_iff env t.2).2
        (h t.2 (mem_playbackLaunch.1 (hperm.mem_iff.1 ht)).1)
  · intro err hfs
    obtain ⟨t, ht, hte⟩ := List.exists_of_findSome?_eq_some hfs
    have h2 := (mem_playbackLaunch.1 (hperm.mem_iff.1 ht)).1
    unfold parseErr at hte
    cases hp : env.urlParse t.2 with
    | ok input => simp [hp] at hte
    | error text =>
      simp only [hp, Option.some.injEq] at hte
      exact ⟨t.2, h2, text, hp, hte.symm⟩

/-- C6: for URLs that all parse, whatever the completion order, `Playback`
returns a nil error and exactly 6 * n records, whose (Src, Arc) pairs are, up to
order, the pairs of every URL with every identifier of the fixed list IA, IS,
IP, PH, TT, GC; and the result is the same for every slot configuration. -/
theorem Playback_valid_urls (cfg : Config) (env : Env) (picks : List Nat) (ctx : Context)
    (urls : List String) (hvalid : ∀ uri ∈ urls, parses env uri = true) :
    (Playback cfg env picks ctx urls).2 = none ∧
      (Playback cfg env picks ctx urls).1.length = 6 * urls.length ∧
      ((Playback cfg env picks ctx urls).1.map Collect.pair).Perm
        (List.product urls
          [cfg.SLOT_IA, cfg.SLOT_IS, cfg.SLOT_IP, cfg.SLOT_PH, cfg.SLOT_TT, cfg.SLOT_GC]) ∧
      ∀ slots, Playback { cfg with Slots := slots } env picks ctx urls =
        Playback cfg env picks ctx urls := by
  have hpairs := Playback_pairs cfg env picks ctx urls
  rw [List.filter_eq_self.2 hvalid] at hpairs
  refine ⟨((Playback_error cfg env picks ctx urls).1).2 hvalid, ?_, hpairs, fun _ => rfl⟩
  have := hpairs.length_eq
  rw [List.length_map] at this
  rw [this.trans (List.length_product _ _)]
  simp [playbackSlots, Nat.mul_comm]

theorem Playback_valid_urls_witness :
    (∀ uri ∈ ["https://example.com/", "https://example.org/"], parses sampleEnv uri = true) ∧
      (Playback sampleConfig sampleEnv [7, 2] {}
        ["https://example.com/", "https://example.org/"]).2 = none ∧
      (Playback sampleConfig sampleEnv [7, 2] {}
        ["https://example.com/", "https://example.org/"]).1.length =
          6 * ["https://example.com/", "https://example.org/"].length ∧
      ((Playback sampleConfig sampleEnv [7, 2] {}
        ["https://example.com/", "https://example.org/"]).1.map Collect.pair).Perm
        (List.product ["https://example.com/", "https://example.org/"]
          [sampleConfig.SLOT_IA, sampleConfig.SLOT_IS, sampleConfig.SLOT_IP,
            sampleConfig.SLOT_PH, sampleConfig.SLOT_TT, sampleConfig.SLOT_GC]) ∧
      Playback { sampleConfig with Slots := [] } sampleEnv [7, 2] {}
          ["https://example.com/", "https://example.org/"] =
        Playback sampleConfig sampleEnv [7, 2] {}
          ["https://example.com/", "https://example.org/"] :=
  have h := Playback_valid_urls sampleConfig sampleEnv [7, 2] {}
    ["https://example.com/", "https://example.org/"] (by decide)
  ⟨by decide, h.1, h.2.1, h.2.2.1, h.2.2.2 []⟩

/-- C10, as stated, fails: with the Internet Archive slot enabled, `Wayback` on
the single malformed URL `":bad"` produces zero records and returns the URL
parse error, not "archives failure". -/
theorem Wayback_zero_records_parse_error :
    Wayback archiveConfig sampleEnv [] {} [":bad"] =
        ([], some (Err.url "missing protocol scheme")) ∧
      (Wayback archiveConfig sampleEnv [] {} [":bad"]).2 ≠ some (Err.new "archives failure") :=
  ⟨by decide, by decide⟩

/-- C10, amended: `Playback` returns a nil error if and only if every input URL
parses; for an empty URL list it returns an empty collection with a nil error,
whereas `Wayback` on an empty URL list returns "archives failure"; and
`Wayback` on an input that produces zero records returns "archives failure"
unless a URL failed to parse, in which case it returns that parse error. -/
theorem Playback_nil_error_iff (cfg : Config) (env : Env) (picks : List Nat) (ctx : Context)
    (urls : List String) :
    ((Playback cfg env picks ctx urls).2 = none ↔ ∀ uri ∈ urls, parses env uri = true) ∧
      Playback cfg env picks ctx [] = ([], none) ∧
      Wayback cfg env picks ctx [] = ([], some (Err.new "archives failure")) ∧
      ((Wayback cfg env picks ctx urls).1 = [] →
        (Wayback cfg env picks ctx urls).2 = some (Err.new "archives failure") ∨
          ∃ uri ∈ urls, ∃ text, env.urlParse uri = .error text ∧
            (Wayback cfg env picks ctx urls).2 = some (Err.url text)) := by
  refine ⟨(Playback_error cfg env picks ctx urls).1, ?_, ?_, ?_⟩
  · simp [Playback, playbackLaunch, pickOrder]
  · simp [Wayback, waybackLaunch, pickOrder]
  · intro hcols
    rcases Wayback_error cfg env picks ctx urls with ⟨uri, huri, text, hp, _, he⟩ | ⟨_, herr⟩
    · exact Or.inr ⟨uri, huri, text, hp, he⟩
    · left
      rw [herr, hcols]
      rfl

theorem Playback_nil_error_iff_witness :
    (Wayback { sampleConfig with Slots := [] } sampleEnv [] {} ["https://example.com/"]).1 = [] ∧
      ((Wayback { sampleConfig with Slots := [] } sampleEnv [] {} ["https://example.com/"]).2 =
          some (Err.new "archives failure") ∨
        ∃ uri ∈ ["https://example.com/"], ∃ text, sampleEnv.urlParse uri = .error text ∧
          (Wayback { sampleConfig with Slots := [] } sampleEnv [] {} ["https://example.com/"]).2 =
            some (Err.url text)) :=
  ⟨by decide,
    (Playback_nil_error_iff { sampleConfig with Slots := [] } sampleEnv [] {}
      ["https://example.com/"]).2.2.2 (by decide)⟩

/-! ## The in-flight set of the Mastodon loop -/

theorem mapHas_mapDelete_self (a : List (String × Bool)) (k : String) :
    mapHas (mapDelete a k) k = false := by
  simp [mapHas, mapDelete]

theorem mapHas_mapDelete_of_ne (a : List (String × Bool)) {k id : String} (h : id ≠ k) :
    mapHas (mapDelete a k) id = mapHas a id := by
  unfold mapHas mapDelete
  induction a with
  | nil => rfl
  | cons e es ih =>
    by_cases hk : e.1 = k
    · have hid : (e.1 == id) = false := by
        rw [beq_eq_false_iff_ne, hk]
        exact Ne.symm h
      have hb : (e.1 != k) = false := by simp [hk]
      rw [List.filter_cons, hb, List.any_cons, hid, Bool.false_or]
      exact ih
    · have hb : (e.1 != k) = true := by simpa using hk
      rw [List.filter_cons, hb, if_pos rfl, List.any_cons, List.any_cons, ih]

/-- Deleting a key that is absent leaves the map as it is. -/
theorem mapDelete_absent (a : List (String × Bool)) (k : String) (h : mapHas a k = false) :
    mapDelete a k = a := by
  unfold mapDelete
  rw [List.filter_eq_self]
  intro e he
  simp only [mapHas, List.any_eq_false, beq_iff_eq] at h
  simpa using h e he

theorem mapHas_mapSet_self (a : List (String × Bool)) (k : String) (v : Bool) :
    mapHas (mapSet a k v) k = true := by
  simp [mapHas, mapSet]

theorem mapHas_mapSet_of_ne (a : List (String × Bool)) {k id : String} (v : Bool) (h : id ≠ k) :
    mapHas (mapSet a k v) id = mapHas a id := by
  have := mapHas_mapDelete_of_ne a h
  simp only [mapHas, mapSet, List.any_cons] at this ⊢
  rw [this]
  simp [Ne.symm h]

theorem mapDelete_mapSet_self (a : List (String × Bool)) (k : String) (v : Bool) :
    mapDelete (mapSet a k v) k = mapDelete a k := by
  simp [mapDelete, mapSet, List.filter_cons, List.filter_filter]

/-- A conversation that is in flight is skipped. -/
theorem visit_in_flight (m : Mastodon) (conv : Conversation)
    (h : mapHas m.archiving conv.ID = true) :
    (m.visit conv).2 = false ∧ (m.visit conv).1.archiving = m.archiving := by
  simp [Mastodon.visit, h]

/-- A conversation that is not in flight is claimed and a pass is started. -/
theorem visit_fresh (m : Mastodon) (conv : Conversation)
    (h : mapHas m.archiving conv.ID = false) :
    (m.visit conv).2 = true ∧
      (m.visit conv).1.archiving = mapSet m.archiving conv.ID true ∧
      (m.visit conv).1.status = conv.LastStatus ∧ (m.visit conv).1.convID = conv.ID := by
  simp [Mastodon.visit, h]

/-- The loop never removes an identifier from the in-flight set. -/
theorem visit_keeps (m : Mastodon) (conv : Conversation) (id : String)
    (h : mapHas m.archiving id = true) : mapHas (m.visit conv).1.archiving id = true := by
  by_cases hc : mapHas m.archiving conv.ID = true
  · rw [(visit_in_flight m conv hc).2]
    exact h
  · have hc : mapHas m.archiving conv.ID = false := by simpa using hc
    rw [(visit_fresh m conv hc).2.1]
    by_cases hid : id = conv.ID
    · rw [hid]
      exact mapHas_mapSet_self _ _ _
    · rw [mapHas_mapSet_of_ne _ _ hid]
      exact h

theorem visit_other (m : Mastodon) (conv : Conversation) (id : String) (hid : id ≠ conv.ID) :
    mapHas (m.visit conv).1.archiving id = mapHas m.archiving id := by
  by_cases hc : mapHas m.archiving conv.ID = true
  · rw [(visit_in_flight m conv hc).2]
  · have hc : mapHas m.archiving conv.ID = false := by simpa using hc
    rw [(visit_fresh m conv hc).2.1, mapHas_mapSet_of_ne _ _ hid]

/-- While an identifier is in flight, a poll starts no pass for it and leaves it
in flight. -/
theorem poll_in_flight (m : Mastodon) (convs : List Conversation) (id : String)
    (h : mapHas m.archiving id = true) :
    (m.poll convs).2.count id = 0 ∧ mapHas (m.poll convs).1.archiving id = true := by
  induction convs generalizing m with
  | nil => exact ⟨rfl, h⟩
  | cons conv convs ih =>
    obtain ⟨h1, h2⟩ := ih (m.visit conv).1 (visit_keeps m conv id h)
    simp only [Mastodon.poll]
    refine ⟨?_, h2⟩
    by_cases hv : (m.visit conv).2 = true
    · have hne : conv.ID ≠ id := by
        intro heq
        rw [← heq] at h
        rw [(visit_in_flight m conv h).1] at hv
        exact Bool.false_ne_true hv
      simp [hv, h1, List.count_cons, hne]
    · simp [hv, h1]

/-- A poll that delivers an identifier which is not in flight starts exactly
one pass for it and leaves it in flight; a poll that does not deliver it starts
none and leaves it out. -/
theorem poll_fresh (m : Mastodon) (convs : List Conversation) (id : String)
    (h : mapHas m.archiving id = false) :
    ((∃ conv ∈ convs, conv.ID = id) →
        (m.poll convs).2.count id = 1 ∧ mapHas (m.poll convs).1.archiving id = true) ∧
      ((∀ conv ∈ convs, conv.ID ≠ id) →
        (m.poll convs).2.count id = 0 ∧ mapHas (m.poll convs).1.archiving id = false) := by
  induction convs generalizing m with
  | nil => exact ⟨fun ⟨_, hc, _⟩ => absurd hc (List.not_mem_nil _), fun _ => ⟨rfl, h⟩⟩
  | cons conv convs ih =>
    simp only [Mastodon.poll]
    by_cases hid : conv.ID = id
    · have hfresh : mapHas m.archiving conv.ID = false := by rw [hid]; exact h
      obtain ⟨hv, ha, _, _⟩ := visit_fresh m conv hfresh
      have hin : mapHas (m.visit conv).1.archiving id = true := by
        rw [ha, hid]
        exact mapHas_mapSet_self _ _ _
      obtain ⟨h1, h2⟩ := poll_in_flight (m.visit conv).1 convs id hin
      refine ⟨fun _ => ⟨?_, h2⟩, fun hall => absurd hid (hall conv (List.mem_cons_self _ _))⟩
      simp [hv, hid, h1]
    · have hkeep : mapHas (m.visit conv).1.archiving id = false := by
        rw [visit_other m conv id (Ne.symm hid)]
        exact h
      obtain ⟨ih1, ih2⟩ := ih (m.visit conv).1 hkeep
      have hcount : ∀ l : List String,
          (if (m.visit conv).2 = true then conv.ID :: l else l).count id = l.count id := by
        intro l
        split_ifs
        · simp [List.count_cons, hid]
        · rfl
      refine ⟨?_, ?_⟩
      · rintro ⟨c, hc, hcid⟩
        rcases List.mem_cons.1 hc with rfl | hc
        · exact absurd hcid hid
        · rw [hcount]
          exact ih1 ⟨c, hc, hcid⟩
      · intro hall
        rw [hcount]
        exact ih2 fun c hc => hall c (List.mem_cons_of_mem _ hc)

theorem polls_in_flight (m : Mastodon) (polls : List (List Conversation)) (id : String)
    (h : mapHas m.archiving id = true) :
    (m.polls polls).2.count id = 0 ∧ mapHas (m.polls polls).1.archiving id = true := by
  induction polls generalizing m with
  | nil => exact ⟨rfl, h⟩
  | cons convs more ih =>
    obtain ⟨h1, h2⟩ := poll_in_flight m convs id h
    obtain ⟨h3, h4⟩ := ih (m.poll convs).1 h2
    simp only [Mastodon.polls]
    exact ⟨by simp [h1, h3], h4⟩

theorem polls_fresh (m : Mastodon) (polls : List (List Conversation)) (id : String)
    (h : mapHas m.archiving id = false)
    (hdel : ∃ convs ∈ polls, ∃ conv ∈ convs, conv.ID = id) :
    (m.polls polls).2.count id = 1 ∧ mapHas (m.polls polls).1.archiving id = true := by
  induction polls generalizing m with
  | nil =>
    obtain ⟨_, hc, _⟩ := hdel
    exact absurd hc (List.not_mem_nil _)
  | cons convs more ih =>
    simp only [Mastodon.polls]
    by_cases hhere : ∃ conv ∈ convs, conv.ID = id
    · obtain ⟨h1, h2⟩ := (poll_fresh m convs id h).1 hhere
      obtain ⟨h3, h4⟩ := polls_in_flight (m.poll convs).1 more id h2
      exact ⟨by simp [h1, h3], h4⟩
    · have hnot : ∀ conv ∈ convs, conv.ID ≠ id := fun c hc hcid => hhere ⟨c, hc, hcid⟩
      obtain ⟨h1, h2⟩ := (poll_fresh m convs id h).2 hnot
      obtain ⟨cs, hcs, hd⟩ := hdel
      rcases List.mem_cons.1 hcs with rfl | hcs
      · exact absurd hd hhere
      · obtain ⟨h3, h4⟩ := ih (m.poll convs).1 h2 ⟨cs, hcs, hd⟩
        exact ⟨by simp [h1, h3], h4⟩

/-! ## Ingestion -/

/-- The loop of `Serve` on its own: a conversation whose identifier is in the
in-flight set is skipped; while an identifier stays in flight no sequence of
polls executes `go m.process(ctx)` for it; and polls that deliver an identifier
which is not in flight execute it exactly once while visiting that
identifier. -/
theorem Serve_starts_one_goroutine_per_claim (m : Mastodon) (id : String) :
    (∀ conv : Conversation, conv.ID = id → mapHas m.archiving id = true →
        (m.visit conv).2 = false ∧ (m.visit conv).1.archiving = m.archiving) ∧
      (∀ polls : List (List Conversation), mapHas m.archiving id = true →
        (m.polls polls).2.count id = 0 ∧ mapHas (m.polls polls).1.archiving id = true) ∧
      (∀ polls : List (List Conversation), mapHas m.archiving id = false →
        (∃ convs ∈ polls, ∃ conv ∈ convs, conv.ID = id) →
        (m.polls polls).2.count id = 1 ∧ mapHas (m.polls polls).1.archiving id = true) ∧
      mapHas (mapDelete m.archiving id) id = false := by
  refine ⟨?_, fun polls h => polls_in_flight m polls id h,
    fun polls h hdel => polls_fresh m polls id h hdel, mapHas_mapDelete_self _ _⟩
  intro conv hid h
  rw [← hid] at h
  exact visit_in_flight m conv h

/-- C7 fails on the code. A first poll delivers the conversations "41" and "44",
a second poll delivers "44" again before anything is released. The loop starts
two goroutines, one while visiting "41" and one while visiting "44", and skips
the second delivery of "44". But `process` takes no argument and reads
`m.status` and `m.convID` when it runs: both passes act on "44", the last
conversation visited. The dispatcher (`archive`) is invoked twice for "44" and
never for "41", "44" is released, and "41" stays in the in-flight set. -/
theorem Serve_two_passes_for_one_conversation :
    (({} : Mastodon).polls
        [[firstConversation, linkConversation], [linkConversation]]).2 = ["41", "44"] ∧
      (Mastodon.Run.steps archiveConfig sampleEnv [] {}
        [.visit firstConversation, .visit linkConversation, .visit linkConversation,
          .pass, .pass]).calls =
        [.archive ["https://example.com/"],
          .ToMastodon "https://web.archive.org/web/1, https://archive.today/1" "9",
          .DeleteConversation "44",
          .archive ["https://example.com/"],
          .ToMastodon "https://web.archive.org/web/1, https://archive.today/1" "9",
          .DeleteConversation "44"] ∧
      (Mastodon.Run.steps archiveConfig sampleEnv [] {}
        [.visit firstConversation, .visit linkConversation, .visit linkConversation,
          .pass, .pass]).calls.count (.archive ["https://example.com/"]) = 2 ∧
      Call.archive ["https://example.org/"] ∉
        (Mastodon.Run.steps archiveConfig sampleEnv [] {}
          [.visit firstConversation, .visit linkConversation, .visit linkConversation,
            .pass, .pass]).calls ∧
      (Mastodon.Run.steps archiveConfig sampleEnv [] {}
        [.visit firstConversation, .visit linkConversation, .visit linkConversation,
          .pass, .pass]).m.archiving = [("41", true)] := by
  decide

/-- C8, as stated, fails. For the Mastodon message "no links here" the loop
claims the conversation before the text is looked at, and the pass that finds no
URL releases it, so the in-flight set is modified twice on behalf of the
message; a conversation that is in flight when it is polled is skipped, and no
pass is started for that delivery; a conversation with an empty identifier gets
no notice; and a Telegram command without a URL gets no notice either. -/
theorem no_url_message_claims_and_releases :
    (sampleEnv.MatchURL (textContent sampleEnv "no links here") = [] ∧
        (({} : Mastodon).visit plainConversation).1.archiving = [("42", true)] ∧
        ((({} : Mastodon).visit plainConversation).1.process sampleConfig sampleEnv []) =
          ({ status := plainConversation.LastStatus, convID := "42", archiving := [] },
            [.ToMastodon "URL no found" "7", .DeleteConversation "42"],
            some (Err.new "Mastodon: URL no found"))) ∧
      ((({} : Mastodon).visit plainConversation).1.visit plainConversation).2 = false ∧
      (Mastodon.Run.steps sampleConfig sampleEnv [] {}
        [.visit namelessConversation, .pass]).calls = [] ∧
      (sampleEnv.MatchURL "/start" = [] ∧
        (telegram.Run.steps sampleConfig sampleEnv [] {}
          [.receive commandUpdate, .pass]).calls = []) :=
  ⟨⟨by decide, by decide, by decide⟩, by decide, by decide, by decide, by decide⟩

/-- C8, amended: for a message whose text contains no URL, the pass started for
it, run while the fields of the struct still hold that message, sends the "no
URL found" notice and does not call `archive`. In Mastodon this is for a
conversation with a status and a non-empty identifier that is not in flight when
it is polled; the loop has claimed the conversation before the text is looked
at, and the pass releases it when it returns, which leaves the in-flight set as
it was before the claim. In Telegram this is for a message that is not a
command; the notice is the only call made, and the handler keeps no in-flight
set. -/
theorem no_url_message_notice (cfg : Config) (env : Env) (picks : List Nat) :
    (∀ (m : Mastodon) (conv : Conversation) (status : Status),
        conv.LastStatus = some status → conv.ID ≠ "" →
        env.MatchURL (textContent env status.Content) = [] →
        mapHas m.archiving conv.ID = false →
        (m.visit conv).2 = true ∧ mapHas (m.visit conv).1.archiving conv.ID = true ∧
          ((m.visit conv).1.process cfg env picks).2.1 =
            [.ToMastodon "URL no found" status.ID, .DeleteConversation conv.ID] ∧
          (∀ urls, Call.archive urls ∉ ((m.visit conv).1.process cfg env picks).2.1) ∧
          ((m.visit conv).1.process cfg env picks).2.2 =
            some (Err.new "Mastodon: URL no found") ∧
          ((m.visit conv).1.process cfg env picks).1.archiving = m.archiving) ∧
      (∀ (t : telegram) (update : Update) (message : Message),
        update.Message = some message → message.IsCommand = false →
        env.MatchURL message.Text = [] →
        (t.receive update).2 = true ∧
          (t.receive update).1.process cfg env picks =
            some [.Send message.ChatID "URL no found." message.MessageID ""] ∧
          (∀ urls calls, (t.receive update).1.process cfg env picks = some calls →
            Call.archive urls ∉ calls)) := by
  constructor
  · intro m conv status hst hid hurls hfresh
    obtain ⟨hv, ha, hs, hc⟩ := visit_fresh m conv hfresh
    have hproc : (m.visit conv).1.process cfg env picks =
        ({ (m.visit conv).1 with archiving := mapDelete (m.visit conv).1.archiving conv.ID },
          [.ToMastodon "URL no found" status.ID, .DeleteConversation conv.ID],
          some (Err.new "Mastodon: URL no found")) := by
      simp [Mastodon.process, hs, hc, hst, hid, hurls]
    refine ⟨hv, ?_, ?_, ?_, ?_, ?_⟩
    · rw [ha]
      exact mapHas_mapSet_self _ _ _
    · rw [hproc]
    · intro urls
      rw [hproc]
      simp
    · rw [hproc]
    · rw [hproc]
      simp only
      rw [ha, mapDelete_mapSet_self, mapDelete_absent _ _ hfresh]
  · intro t update message hm hcmd hurls
    have hproc : (t.receive update).1.process cfg env picks =
        some [.Send message.ChatID "URL no found." message.MessageID ""] := by
      simp [telegram.receive, telegram.process, hm, hcmd, hurls]
    refine ⟨by simp [telegram.receive, hm], hproc, ?_⟩
    intro urls calls hcalls
    rw [hproc] at hcalls
    cases hcalls
    simp

/-- The message "no links here" in Mastodon and in Telegram. -/
theorem no_url_message_notice_witness :
    (plainConversation.LastStatus = some { ID := "7", Content := "no links here" } ∧
        plainConversation.ID ≠ "" ∧
        sampleEnv.MatchURL (textContent sampleEnv "no links here") = [] ∧
        mapHas ({} : Mastodon).archiving plainConversation.ID = false ∧
        ((({} : Mastodon).visit plainConversation).1.process sampleConfig sampleEnv []).2.1 =
          [.ToMastodon "URL no found" "7", .DeleteConversation "42"] ∧
        ((({} : Mastodon).visit plainConversation).1.process sampleConfig sampleEnv []).1.archiving =
          ({} : Mastodon).archiving) ∧
      (plainUpdate.Message =
          some { MessageID := 2, ChatID := 5, Text := "no links here", IsCommand := false } ∧
        sampleEnv.MatchURL "no links here" = [] ∧
        (({} : telegram).receive plainUpdate).1.process sampleConfig sampleEnv [] =
          some [.Send 5 "URL no found." 2 ""]) :=
  have h := (no_url_message_notice sampleConfig sampleEnv []).1 {} plainConversation
    { ID := "7", Content := "no links here" } rfl (by decide) (by decide) (by decide)
  ⟨⟨rfl, by decide, by decide, by decide, h.2.2.1, h.2.2.2.2.2⟩,
    ⟨rfl, by decide,
      ((no_url_message_notice sampleConfig sampleEnv []).2 {} plainUpdate
        { MessageID := 2, ChatID := 5, Text := "no links here", IsCommand := false }
        rfl rfl (by decide)).2.1⟩⟩

/-- The Telegram pass, too, reads the shared field when it runs: after the
updates "no links here" and "/start" have been received, both passes act on the
command and no notice is sent. -/
theorem telegram_passes_read_last_update :
    (telegram.Run.steps sampleConfig sampleEnv [] {}
      [.receive plainUpdate, .receive commandUpdate, .pass, .pass]).calls = [] ∧
      (telegram.Run.steps sampleConfig sampleEnv [] {}
        [.receive plainUpdate, .pass, .receive commandUpdate, .pass]).calls =
        [.Send 5 "URL no found." 2 ""] := by
  decide

/-- C9 fails on the code: the loop claims a conversation that carries no last
status, and the pass started for it returns "no status or conversation" before
its deferred release is registered, so the identifier stays in the in-flight
set after the pass has returned, and every later poll skips the conversation. -/
theorem process_without_status_keeps_claim (cfg : Config) (env : Env) (picks : List Nat) :
    (({} : Mastodon).visit emptyConversation) =
        ({ status := none, convID := "43", archiving := [("43", true)] }, true) ∧
      (({} : Mastodon).visit emptyConversation).1.process cfg env picks =
        ({ status := none, convID := "43", archiving := [("43", true)] }, [],
          some (Err.new "Mastodon: no status or conversation")) ∧
      mapHas ((({} : Mastodon).visit emptyConversation).1.process cfg env picks).1.archiving
        "43" = true ∧
      ((((({} : Mastodon).visit emptyConversation).1.process cfg env picks).1).visit
        emptyConversation).2 = false :=
  ⟨by decide, rfl, rfl, rfl⟩

/-- On the other paths of `process` (no URL found, archiving failed, success)
the claimed conversation is released when the pass returns, provided the struct
fields are still those the loop set for it. -/
theorem process_releases (cfg : Config) (env : Env) (picks : List Nat) (m : Mastodon)
    (conv : Conversation) (status : Status) (hst : conv.LastStatus = some status)
    (hid : conv.ID ≠ "") :
    mapHas ((m.visit conv).1.process cfg env picks).1.archiving conv.ID = false := by
  have hs : (m.visit conv).1.status = some status := by
    rw [← hst]
    by_cases h : mapHas m.archiving conv.ID = true <;> simp [Mastodon.visit, h]
  have hc : (m.visit conv).1.convID = conv.ID := by
    by_cases h : mapHas m.archiving conv.ID = true <;> simp [Mastodon.visit, h]
  have key : ((m.visit conv).1.process cfg env picks).1.archiving =
      mapDelete (m.visit conv).1.archiving conv.ID := by
    simp only [Mastodon.process, hs, hc, hid, if_false, Mastodon.archive]
    split_ifs <;> rfl
  rw [key]
  exact mapHas_mapDelete_self _ _

/-- The pass reads the fields of the struct when it runs, not when it was
started: after one poll has delivered the conversations "42" and "44", both
passes act on "44", the last one visited; "44" is released and "42" stays in
the in-flight set. -/
theorem process_reads_current_conversation :
    (({} : Mastodon).poll [plainConversation, linkConversation]).2 = ["42", "44"] ∧
      ((({} : Mastodon).poll [plainConversation, linkConversation]).1.process
        archiveConfig sampleEnv []).2.1 =
        [.archive ["https://example.com/"], .ToMastodon "https://web.archive.org/web/1, https://archive.today/1" "9", .DeleteConversation "44"] ∧
      (((({} : Mastodon).poll [plainConversation, linkConversation]).1.process
        archiveConfig sampleEnv []).1.process archiveConfig sampleEnv []).2.1 =
        [.archive ["https://example.com/"], .ToMastodon "https://web.archive.org/web/1, https://archive.today/1" "9", .DeleteConversation "44"] ∧
      (((({} : Mastodon).poll [plainConversation, linkConversation]).1.process
        archiveConfig sampleEnv []).1.process archiveConfig sampleEnv []).1.archiving =
        [("42", true)] := by
  decide

end Wabarc
